import Mathlib

/-!
Verification development for the `async-bagit` library: a shallow embedding
of the crate's data model (checksums, metadata tags, payloads, bags) and of
its operations (`Metadata::from_str`, `Payload::from_manifest`,
`Manifest::find`, `Manifest::get_validate_payloads`, `BagIt::read_existing`,
`BagIt::finalize`), together with theorems settling the specification claims.

Filesystem interaction is modelled by an oracle record `FS`: each system call
performed by the Rust code (existence tests, canonicalization, directory
listing, reads, writes, size queries) is answered by the oracle, and `u8` /
`usize` values are modelled as `Nat` with explicit range bounds where the
Rust type imposes one.
-/

deriving instance DecidableEq for Except

namespace Bagit

/-! ## Characters and strings

Helpers mirroring the Rust string primitives used by the crate:
`char::is_whitespace`, `str::split_whitespace`, `str::split_once`,
`str::strip_prefix`, `str::starts_with` / `ends_with`, and decimal
formatting/parsing of unsigned integers.
-/

/-- Model of Rust `char::is_whitespace`: the Unicode `White_Space` property. -/
def rustIsWhitespace (c : Char) : Bool :=
  let n := c.toNat
  if (9 ≤ n ∧ n ≤ 13) ∨ n = 32 ∨ n = 133 ∨ n = 160 ∨ n = 5760 ∨
     (8192 ≤ n ∧ n ≤ 8202) ∨ n = 8232 ∨ n = 8233 ∨ n = 8239 ∨ n = 8287 ∨ n = 12288
  then true else false

/-- Accumulator pass of `str::split_whitespace`: splits at whitespace and
drops empty fragments. `cur` holds the current word reversed. -/
def splitWsAux : List Char → List Char → List (List Char)
  | [], cur => if cur = [] then [] else [cur.reverse]
  | c :: cs, cur =>
    if rustIsWhitespace c then
      if cur = [] then splitWsAux cs [] else cur.reverse :: splitWsAux cs []
    else splitWsAux cs (c :: cur)

/-- Model of Rust `str::split_whitespace` collected into a list. -/
def splitWhitespace (s : String) : List String :=
  (splitWsAux s.data []).map String.mk

/-- Split a character list at the first occurrence of `sep`,
returning the parts before and after it (Rust `str::split_once`). -/
def splitOnceL (sep : List Char) : List Char → Option (List Char × List Char)
  | [] => none
  | c :: rest =>
    if sep.isPrefixOf (c :: rest) then some ([], (c :: rest).drop sep.length)
    else (splitOnceL sep rest).map (fun p => (c :: p.1, p.2))

/-- Model of Rust `str::split_once`. -/
def splitOnce (s sep : String) : Option (String × String) :=
  (splitOnceL sep.data s.data).map (fun p => (String.mk p.1, String.mk p.2))

/-- Model of Rust `str::strip_prefix` (the argument order is: the text to
strip from, then the leading part to remove). -/
def stripLeading (s pre : String) : Option String :=
  if pre.data.isPrefixOf s.data then some (String.mk (s.data.drop pre.data.length)) else none

/-- Model of Rust `str::starts_with` for a string pattern. -/
def strStartsWith (s pre : String) : Bool :=
  pre.data.isPrefixOf s.data

/-- ASCII decimal digit test, as used by integer parsing. -/
def decIsDigit (c : Char) : Bool :=
  decide (48 ≤ c.toNat ∧ c.toNat ≤ 57)

/-- Character for a single decimal digit. -/
def decChar (d : Nat) : Char := Char.ofNat (48 + d)

/-- Decimal digits of `n`, least significant first, with explicit fuel so the
definition is structural. -/
def decDigitsAux : Nat → Nat → List Nat
  | 0, _ => []
  | fuel + 1, n => if n = 0 then [] else n % 10 :: decDigitsAux fuel (n / 10)

/-- Decimal digits of `n`, least significant first (`[]` for `0`). -/
def decDigits (n : Nat) : List Nat := decDigitsAux n n

/-- Value of a little-endian decimal digit list. -/
def ofDecDigits : List Nat → Nat
  | [] => 0
  | d :: l => d + 10 * ofDecDigits l

/-- Decimal rendering of a `Nat`, the model of Rust `format!("{n}")` for the
unsigned integer types. -/
def natToDecChars (n : Nat) : List Char :=
  if n = 0 then ['0'] else ((decDigits n).map decChar).reverse

/-- Decimal rendering as a `String`. -/
def natToDec (n : Nat) : String := String.mk (natToDecChars n)

/-- Left fold turning an ASCII digit list into its value, as Rust's
`from_str` for unsigned integers does. -/
def foldDecDigits (cs : List Char) : Nat :=
  cs.foldl (fun a c => 10 * a + (c.toNat - 48)) 0

/-- Model of Rust `str::parse` for an unsigned integer type with maximum
value `cap` (`u8`: 255, `usize`: 2^64 - 1): an optional leading `+`, then one
or more ASCII digits, value within range. -/
def parseRustUnsigned (cap : Nat) (s : String) : Option Nat :=
  let cs := if s.data.head? = some '+' then s.data.tail else s.data
  if cs ≠ [] ∧ cs.all decIsDigit then
    let n := foldDecDigits cs
    if n ≤ cap then some n else none
  else none

/-- Largest `u8` value. -/
def u8Cap : Nat := 255

/-- Largest `usize` value (the crate targets 64-bit platforms). -/
def usizeCap : Nat := 18446744073709551615

/-! ## Paths

Rust `Path` values are modelled as an absoluteness flag plus a component
list; `join`, `starts_with`, `file_stem` and `extension` follow the `std`
semantics used by the crate.
-/

/-- Model of a Rust filesystem path. -/
structure RPath where
  absolute : Bool
  comps : List String
deriving DecidableEq

/-- A relative path from components. -/
def RPath.rel (cs : List String) : RPath := ⟨false, cs⟩

/-- Fragments of a character list split at `/`, empty fragments included. -/
def splitSlashAux : List Char → List Char → List String
  | [], cur => [String.mk cur.reverse]
  | c :: cs, cur =>
    if c = '/' then String.mk cur.reverse :: splitSlashAux cs []
    else splitSlashAux cs (c :: cur)

/-- Model of Rust `Path::new(<str>)`: a leading `/` makes it absolute, empty
components collapse. -/
def RPath.ofString (s : String) : RPath :=
  ⟨decide (s.data.head? = some '/'), (splitSlashAux s.data []).filter (· ≠ "")⟩

/-- Model of Rust `Path::join`: an absolute right side replaces the left. -/
def RPath.join (p q : RPath) : RPath :=
  if q.absolute then q else ⟨p.absolute, p.comps ++ q.comps⟩

/-- Model of Rust `Path::starts_with`: component-wise prefix. -/
def RPath.startsWith (p base : RPath) : Bool :=
  (p.absolute == base.absolute) && base.comps.isPrefixOf p.comps

/-- Display form of a path (components joined by `/`). -/
def RPath.display (p : RPath) : String :=
  (if p.absolute then "/" else "") ++ String.intercalate "/" p.comps

/-- Split a file name at its last dot, following Rust
`std::path::split_file_at_dot`: `..` and a sole leading dot do not count. -/
def splitFileAtDot (name : String) : String × Option String :=
  if name.data = ['.', '.'] then (name, none) else
  match splitOnceL ['.'] name.data.reverse with
  | none => (name, none)
  | some (extRev, stemRev) =>
    if stemRev = [] then (name, none)
    else (String.mk stemRev.reverse, some (String.mk extRev.reverse))

/-- Model of Rust `Path::file_stem` (over the last component). -/
def RPath.fileStem (p : RPath) : Option String :=
  p.comps.getLast?.map (fun n => (splitFileAtDot n).1)

/-- Model of Rust `Path::extension` (over the last component). -/
def RPath.extension (p : RPath) : Option String :=
  p.comps.getLast?.bind (fun n => (splitFileAtDot n).2)

end Bagit

namespace Bagit

/-! ## Metadata tags (`src/metadata.rs`)

The crate is modelled with the optional `date` capability disabled, as the
specification allows: `Bagging-Date` lines fall through to `Custom`.
-/

/-- Key of the version tag. -/
def KEY_VERSION : String := "BagIt-Version"

/-- Key of the encoding tag. -/
def KEY_ENCODING : String := "Tag-File-Character-Encoding"

/-- Key of the byte/stream summary tag. -/
def KEY_OXUM : String := "Payload-Oxum"

/-- The `Metadata` enum: one typed `Key: Value` line. `u8` and `usize`
fields become `Nat` (range bounds appear in `wellFormed`). -/
inductive Metadata where
  | Custom (key : String) (value : String)
  | BagitVersion (major : Nat) (minor : Nat)
  | Encoding
  | PayloadOctetStreamSummary (octet_count : Nat) (stream_count : Nat)
deriving DecidableEq

/-- `Metadata::key`. -/
def Metadata.key : Metadata → String
  | .Custom k _ => k
  | .BagitVersion _ _ => KEY_VERSION
  | .Encoding => KEY_ENCODING
  | .PayloadOctetStreamSummary _ _ => KEY_OXUM

/-- `Metadata::value`. -/
def Metadata.value : Metadata → String
  | .Custom _ v => v
  | .BagitVersion major minor => natToDec major ++ "." ++ natToDec minor
  | .Encoding => "UTF-8"
  | .PayloadOctetStreamSummary octets streams => natToDec octets ++ "." ++ natToDec streams

/-- The `Display` implementation: `"<key>: <value>"`. -/
def Metadata.toLine (m : Metadata) : String := m.key ++ ": " ++ m.value

/-- Errors of tag parsing and construction. `ValueParsing` carries the
offending key, as in the source. -/
inductive MetadataError where
  | Format
  | KeyForbiddenCharacter
  | ValueForbiddenCharacter
  | ValueParsing (key : String)
  | Encoding
deriving DecidableEq

/-- `Metadata::validate_format`. -/
def Metadata.validate_format (key value : String) : Except MetadataError Unit :=
  if key.data = [] ∨ value.data = [] then .error .Format
  else if key.data.contains ':' then .error .KeyForbiddenCharacter
  else if (match value.data.head? with
           | some c => rustIsWhitespace c
           | none => false) = true ∨
          (match value.data.getLast? with
           | some c => rustIsWhitespace c
           | none => false) = true then .error .ValueForbiddenCharacter
  else .ok ()

/-- `FromStr` for `Metadata` (with the `date` capability disabled, so
`Bagging-Date` keys fall through to `Custom`). -/
def Metadata.from_str (s : String) : Except MetadataError Metadata :=
  match splitOnce s ": " with
  | none => .error .Format
  | some (key, value) =>
    match Metadata.validate_format key value with
    | .error e => .error e
    | .ok () =>
      if key = KEY_VERSION then
        match splitOnce value "." with
        | none => .error (.ValueParsing KEY_VERSION)
        | some (majorStr, minorStr) =>
          match parseRustUnsigned u8Cap majorStr with
          | none => .error (.ValueParsing KEY_VERSION)
          | some major =>
            match parseRustUnsigned u8Cap minorStr with
            | none => .error (.ValueParsing KEY_VERSION)
            | some minor => .ok (.BagitVersion major minor)
      else if key = KEY_ENCODING then
        if value ≠ "UTF-8" then .error .Encoding else .ok .Encoding
      else if key = KEY_OXUM then
        match splitOnce value "." with
        | none => .error (.ValueParsing KEY_OXUM)
        | some (octetStr, streamStr) =>
          match parseRustUnsigned usizeCap octetStr with
          | none => .error (.ValueParsing KEY_OXUM)
          | some octets =>
            match parseRustUnsigned usizeCap streamStr with
            | none => .error (.ValueParsing KEY_OXUM)
            | some streams => .ok (.PayloadOctetStreamSummary octets streams)
      else .ok (.Custom key value)

/-- The well-formedness invariants stated by the specification: custom keys
are non-empty without `:`, custom values are non-empty without edge
whitespace, numeric fields are in the range of their Rust integer type. -/
def Metadata.wellFormed : Metadata → Bool
  | .Custom k v =>
      decide (k.data ≠ []) && !k.data.contains ':' && decide (v.data ≠ []) &&
      (match v.data.head? with
       | some c => !rustIsWhitespace c
       | none => false) &&
      (match v.data.getLast? with
       | some c => !rustIsWhitespace c
       | none => false)
  | .BagitVersion major minor => decide (major ≤ u8Cap ∧ minor ≤ u8Cap)
  | .Encoding => true
  | .PayloadOctetStreamSummary octets streams => decide (octets ≤ usizeCap ∧ streams ≤ usizeCap)

/-- Whether a tag is a `Custom` tag whose key collides with one of the
reserved typed keys of this configuration. -/
def Metadata.reservedCustomKey : Metadata → Bool
  | .Custom k _ => k = KEY_VERSION || k = KEY_ENCODING || k = KEY_OXUM
  | _ => false

/-- Whether a tag is the byte/stream summary tag. -/
def Metadata.isOxum : Metadata → Bool
  | .PayloadOctetStreamSummary _ _ => true
  | _ => false

end Bagit

namespace Bagit

/-! ## Filesystem oracle and checksum engine (`src/checksum.rs`)

An `FS` value answers every system call the crate performs. Write calls do
not mutate the oracle; instead the generate pipeline returns the list of
(path, contents) write events it performed, so theorems can talk about what
was written. An `std::io::ErrorKind` is modelled as a `Nat`.
-/

/-- Oracle answering the filesystem calls made by the crate. -/
structure FS where
  /-- `Path::is_dir` -/
  isDir : RPath → Bool
  /-- `Path::exists` -/
  pathExists : RPath → Bool
  /-- `Path::is_file` -/
  isFile : RPath → Bool
  /-- `File::open`; `.error k` is an I/O error of kind `k` -/
  openRes : RPath → Except Nat Unit
  /-- reading a file line by line to the end (`BufReader::lines`) -/
  linesRes : RPath → Except Nat (List String)
  /-- reading a file's raw bytes to the end (`read_to_end`) -/
  bytesRes : RPath → Except Nat (List Nat)
  /-- `Path::metadata().len()`, the file size in bytes -/
  sizeRes : RPath → Except Nat Nat
  /-- `read_dir` listing of a directory -/
  readDirRes : RPath → Except Nat (List RPath)
  /-- `Path::canonicalize` -/
  canon : RPath → Except Nat RPath
  /-- `fs::write`; `some k` is an I/O error of kind `k`, `none` is success -/
  writeRes : RPath → Option Nat

/-- The `Checksum` newtype: an opaque hex string (`Cow` collapses to
`String`; its derived equality compares text). -/
structure Checksum where
  hex : String
deriving DecidableEq

/-- `From<&str> for Checksum`: stores the text unchanged, no re-encoding. -/
def Checksum.ofString (s : String) : Checksum := ⟨s⟩

/-- Lowercase hex digit. -/
def hexDigitChar (n : Nat) : Char :=
  if n < 10 then Char.ofNat (48 + n) else Char.ofNat (87 + n)

/-- Lowercase hex encoding of a byte list (the `hex::encode` call in the
`From<Vec<u8>>` conversion). -/
def hexEncode (bs : List Nat) : String :=
  String.mk ((bs.map (fun b => [hexDigitChar (b / 16 % 16), hexDigitChar (b % 16)])).flatten)

/-- `Checksum::digest` for an abstract digest function returning raw hash
bytes. -/
def Checksum.digestWith (digest : List Nat → List Nat) (bytes : List Nat) : Checksum :=
  ⟨hexEncode (digest bytes)⟩

/-- Errors of `compute_checksum_file`. -/
inductive ChecksumComputeError where
  | FileNotFound
  | OpenFile (kind : Nat)
  | ReadFile (kind : Nat)
  | ComputeChecksum
deriving DecidableEq

/-- `compute_checksum_file`: existence check, open, read to end, digest.
The digest closure is pure, so the `spawn_blocking` join cannot fail and the
`ComputeChecksum` branch is unreachable in the model. -/
def compute_checksum_file (fs : FS) (digest : List Nat → List Nat) (path : RPath) :
    Except ChecksumComputeError Checksum :=
  if fs.isFile path = false then .error .FileNotFound
  else
    match fs.openRes path with
    | .error k => .error (.OpenFile k)
    | .ok () =>
      match fs.bytesRes path with
      | .error k => .error (.ReadFile k)
      | .ok bytes => .ok (Checksum.digestWith digest bytes)

/-! ## Payloads (`src/payload.rs`) -/

/-- Errors when manipulating payloads. -/
inductive PayloadError where
  | InvalidLine
  | Absolute (kind : Nat)
  | NotInsideBag
  | ComputeChecksum (e : ChecksumComputeError)
  | ChecksumDiffers
  | FileSize (kind : Nat)
deriving DecidableEq

/-- A file inside a bagit container. -/
structure Payload where
  checksum : Checksum
  relative_path : RPath
  bytes : Nat
deriving DecidableEq

/-- The `Display` implementation: `"<checksum> <relative path>"`. -/
def Payload.toLine (p : Payload) : String :=
  p.checksum.hex ++ " " ++ p.relative_path.display

/-- `Payload::new`: record the checksum and path, read the file size from
`absolute_base_path.join(relative_path)`. -/
def Payload.new (fs : FS) (absolute_base_path relative_path_file : RPath) (checksum : Checksum) :
    Except PayloadError Payload :=
  match fs.sizeRes (absolute_base_path.join relative_path_file) with
  | .error k => .error (.FileSize k)
  | .ok bytes => .ok ⟨checksum, relative_path_file, bytes⟩

/-- The part of `Payload::from_manifest` after the two whitespace tokens of
the line have been extracted. -/
def Payload.fromTokens (fs : FS) (digest : List Nat → List Nat)
    (checksum_from_manifest relative_file_path : String) (base_directory : RPath) :
    Except PayloadError Payload :=
  match fs.canon (base_directory.join (RPath.ofString relative_file_path)) with
  | .error k => .error (.Absolute k)
  | .ok file_path =>
    match fs.canon base_directory with
    | .error k => .error (.Absolute k)
    | .ok canonical_base =>
      if file_path.startsWith canonical_base = false then .error .NotInsideBag
      else
        match compute_checksum_file fs digest file_path with
        | .error e => .error (.ComputeChecksum e)
        | .ok checksum =>
          if checksum ≠ Checksum.ofString checksum_from_manifest then .error .ChecksumDiffers
          else
            match fs.sizeRes file_path with
            | .error k => .error (.FileSize k)
            | .ok bytes => .ok ⟨checksum, RPath.ofString relative_file_path, bytes⟩

/-- `Payload::from_manifest`: split the line on whitespace, take the first
two tokens via `next_chunk::<2>` (failing with `InvalidLine` when fewer than
two exist; extra tokens stay unread), then resolve, contain-check, checksum
and size the payload. -/
def Payload.from_manifest (fs : FS) (digest : List Nat → List Nat)
    (manifest_line : String) (base_directory : RPath) : Except PayloadError Payload :=
  match splitWhitespace manifest_line with
  | checksum_from_manifest :: relative_file_path :: _ =>
    Payload.fromTokens fs digest checksum_from_manifest relative_file_path base_directory
  | _ => .error .InvalidLine

end Bagit

namespace Bagit

/-! ## Algorithm descriptor (`src/algorithm.rs`) -/

/-- The closed algorithm enumeration. -/
inductive Algorithm where
  | Sha256
  | Sha512
  | Blake2b256
  | Blake2b512
  | Custom (name : String)
deriving DecidableEq

/-- `Algorithm::name`, the token used in manifest file names. -/
def Algorithm.name : Algorithm → String
  | .Sha256 => "sha256"
  | .Sha512 => "sha512"
  | .Blake2b256 => "blake2b256"
  | .Blake2b512 => "blake2b512"
  | .Custom x => x

/-! ## Tag files (`src/metadata/file.rs`) -/

/-- Errors of reading a metadata file. -/
inductive MetadataFileError where
  | Metadata (e : MetadataError)
  | ReadFile (kind : Nat)
deriving DecidableEq

/-- Parse each line of a tag file in order, propagating the first failure. -/
def parseTagLines : List String → Except MetadataError (List Metadata)
  | [] => .ok []
  | line :: rest =>
    match Metadata.from_str line with
    | .error e => .error e
    | .ok tag =>
      match parseTagLines rest with
      | .error e => .error e
      | .ok tags => .ok (tag :: tags)

/-- `MetadataFile::read`: open, then parse line by line; open and read
failures both surface as `ReadFile` with the error kind. -/
def MetadataFile.read (fs : FS) (path : RPath) : Except MetadataFileError (List Metadata) :=
  match fs.openRes path with
  | .error k => .error (.ReadFile k)
  | .ok () =>
    match fs.linesRes path with
    | .error k => .error (.ReadFile k)
    | .ok lines =>
      match parseTagLines lines with
      | .error e => .error (.Metadata e)
      | .ok tags => .ok tags

/-- Serialized contents of a tag file: tag lines joined with `\n`
(`MetadataFile::write`). -/
def MetadataFile.contents (tags : List Metadata) : String :=
  String.intercalate "\n" (tags.map Metadata.toLine)

/-! ## Read pipeline errors (`src/read.rs`) -/

/-- Errors when reading the bag declaration file `bagit.txt`. -/
inductive BagDeclarationError where
  | Missing
  | Metadata (e : MetadataFileError)
  | Tag (key : String)
  | NumberTags
deriving DecidableEq

/-- Errors when reading a bagit container. -/
inductive ReadError where
  | NotDirectory
  | BagDeclaration (e : BagDeclarationError)
  | BagInfo (e : MetadataFileError)
  | BagInfoOxum (field : String)
  | ListChecksumFiles (kind : Nat)
  | NotRequestedAlgorithm
  | OpenFile (kind : Nat)
  | ReadLine (kind : Nat)
  | ProcessManifestLine (e : PayloadError)
deriving DecidableEq

/-! ## Manifest location and validation (`src/manifest.rs`) -/

/-- Whether a directory entry passes the candidate filter of
`Manifest::find`: a regular file, stem starting with the manifest marker,
`.txt` extension. -/
def manifestCandidate (fs : FS) (marker : String) (p : RPath) : Bool :=
  fs.isFile p &&
  (match p.fileStem with
   | some stem => strStartsWith stem marker
   | none => false) &&
  (p.extension == some "txt")

/-- `Manifest::find`: filter the directory entries to candidates, then pick
the first whose stem, with the marker stripped, equals the algorithm name.
The source wraps this in an always-`Ok` `Result`; the model drops the
wrapper. -/
def Manifest.find (fs : FS) (files_in_directory : List RPath) (algoName marker : String) :
    Option RPath :=
  (files_in_directory.filter (manifestCandidate fs marker)).find?
    (fun p => (match p.fileStem with
               | some stem => stripLeading stem marker
               | none => none) == some algoName)

/-- `Manifest::find_manifest`. -/
def Manifest.find_manifest (fs : FS) (files : List RPath) (algoName : String) : Option RPath :=
  Manifest.find fs files algoName "manifest-"

/-- `Manifest::find_tag_manifest`. -/
def Manifest.find_tag_manifest (fs : FS) (files : List RPath) (algoName : String) : Option RPath :=
  Manifest.find fs files algoName "tagmanifest-"

/-- The per-line loop of `Manifest::get_validate_payloads`: validate each
line in order, aborting on the first failure. -/
def processManifestLines (fs : FS) (digest : List Nat → List Nat) (dir : RPath) :
    List String → Except ReadError (List Payload)
  | [] => .ok []
  | line :: rest =>
    match Payload.from_manifest fs digest line dir with
    | .error e => .error (.ProcessManifestLine e)
    | .ok item =>
      match processManifestLines fs digest dir rest with
      | .error e => .error e
      | .ok items => .ok (item :: items)

/-- `Manifest::get_validate_payloads`: open the manifest, read its lines,
validate every line into a payload. -/
def Manifest.get_validate_payloads (fs : FS) (digest : List Nat → List Nat)
    (manifest : RPath) (bag_it_directory : RPath) : Except ReadError (List Payload) :=
  match fs.openRes manifest with
  | .error k => .error (.OpenFile k)
  | .ok () =>
    match fs.linesRes manifest with
    | .error k => .error (.ReadLine k)
    | .ok lines => processManifestLines fs digest bag_it_directory lines

end Bagit

namespace Bagit

/-! ## The bag aggregate and the read pipeline (`src/lib.rs`, `src/read.rs`) -/

/-- The `BagIt` aggregate: root path, payload list, selected algorithm, and
bag-info tags. -/
structure BagIt where
  path : RPath
  items : List Payload
  checksum_algorithm : Algorithm
  tags : List Metadata
deriving DecidableEq

/-- `manifest-<algorithm>.txt`. -/
def BagIt.manifestName (b : BagIt) : String :=
  "manifest-" ++ b.checksum_algorithm.name ++ ".txt"

/-- `tagmanifest-<algorithm>.txt`. -/
def BagIt.tagmanifestName (b : BagIt) : String :=
  "tagmanifest-" ++ b.checksum_algorithm.name ++ ".txt"

/-- Path of `bagit.txt` under a bag root. -/
def bagitPath (dir : RPath) : RPath := dir.join (RPath.rel ["bagit.txt"])

/-- Path of `bag-info.txt` under a bag root. -/
def baginfoPath (dir : RPath) : RPath := dir.join (RPath.rel ["bag-info.txt"])

/-- The declaration shape check of `read_existing`: first tag a version,
second the encoding, nothing further. -/
def declarationCheck : List Metadata → Except BagDeclarationError Unit
  | .BagitVersion _ _ :: rest =>
    match rest with
    | .Encoding :: rest2 =>
      match rest2 with
      | [] => .ok ()
      | _ :: _ => .error .NumberTags
    | _ => .error (.Tag KEY_ENCODING)
  | _ => .error (.Tag KEY_VERSION)

/-- The Payload-Oxum cross-check loop of `read_existing`: every summary tag
in bag-info must declare the computed stream count and byte total. -/
def oxumCheck (payloads : List Payload) : List Metadata → Except ReadError Unit
  | [] => .ok ()
  | .PayloadOctetStreamSummary octet_count stream_count :: rest =>
    if stream_count ≠ payloads.length then .error (.BagInfoOxum "stream_count")
    else if octet_count ≠ (payloads.map Payload.bytes).sum then .error (.BagInfoOxum "octet_count")
    else oxumCheck payloads rest
  | _ :: rest => oxumCheck payloads rest

/-- The stages of `BagIt::read_existing` after the bag-info load, in source
order: directory listing, manifest lookup, payload validation, optional
oxum cross-check, optional tag-manifest validation. -/
def BagIt.validateManifests (fs : FS) (digest : List Nat → List Nat)
    (bag_it_directory : RPath) (checksum_algorithm : Algorithm)
    (bag_info : Option (List Metadata)) : Except ReadError BagIt :=
          match fs.readDirRes bag_it_directory with
          | .error k => .error (.ListChecksumFiles k)
          | .ok files_in_dir =>
            match Manifest.find_manifest fs files_in_dir checksum_algorithm.name with
            | none => .error .NotRequestedAlgorithm
            | some manifest =>
              match Manifest.get_validate_payloads fs digest manifest bag_it_directory with
              | .error e => .error e
              | .ok payloads =>
                match (match bag_info with
                       | some tags => oxumCheck payloads tags
                       | none => .ok ()) with
                | .error e => .error e
                | .ok () =>
                  match (match Manifest.find_tag_manifest fs files_in_dir
                               checksum_algorithm.name with
                         | some tag_manifest =>
                           match Manifest.get_validate_payloads fs digest tag_manifest
                                 bag_it_directory with
                           | .error e => .error e
                           | .ok _ => .ok ()
                         | none => .ok () : Except ReadError Unit) with
                  | .error e => .error e
                  | .ok () =>
                    .ok ⟨bag_it_directory, payloads, checksum_algorithm, bag_info.getD []⟩

/-- The stages of `BagIt::read_existing` after the declaration check:
optional bag-info load, then the manifest stages
(`BagIt.validateManifests`). -/
def BagIt.validateRest (fs : FS) (digest : List Nat → List Nat)
    (bag_it_directory : RPath) (checksum_algorithm : Algorithm) : Except ReadError BagIt :=
  match (if fs.pathExists (baginfoPath bag_it_directory) then
           match MetadataFile.read fs (baginfoPath bag_it_directory) with
           | .error e => .error (ReadError.BagInfo e)
           | .ok tags => .ok (some tags)
         else .ok none : Except ReadError (Option (List Metadata))) with
  | .error e => .error e
  | .ok bag_info =>
    BagIt.validateManifests fs digest bag_it_directory checksum_algorithm bag_info

/-- `BagIt::read_existing`: the validation state machine, in source order:
directory check, declaration check, then the remaining stages
(`BagIt.validateRest`). -/
def BagIt.read_existing (fs : FS) (digest : List Nat → List Nat)
    (bag_it_directory : RPath) (checksum_algorithm : Algorithm) : Except ReadError BagIt :=
  if fs.isDir bag_it_directory = false then .error .NotDirectory
  else if fs.pathExists (bagitPath bag_it_directory) = false then
    .error (.BagDeclaration .Missing)
  else
    match MetadataFile.read fs (bagitPath bag_it_directory) with
    | .error e => .error (.BagDeclaration (.Metadata e))
    | .ok bagit_tags =>
      match declarationCheck bagit_tags with
      | .error e => .error (.BagDeclaration e)
      | .ok () => BagIt.validateRest fs digest bag_it_directory checksum_algorithm

end Bagit

namespace Bagit

/-! ## Generate pipeline (`src/generate.rs`)

`finalize` is modelled as a function from the filesystem oracle and the bag
to a result, the bag after its `&mut self` mutation, and the ordered list of
(path, contents) pairs written so far. A write event is recorded exactly
when the corresponding `fs::write` call succeeds.
-/

/-- Errors when creating bagit containers. -/
inductive GenerateError where
  | ComputeChecksum (e : ChecksumComputeError)
  | FileHasNoName
  | OpenChecksumFile (kind : Nat)
  | CopyToPayloadFolder (kind : Nat)
  | StripPrefixPath
  | Finalize (kind : Nat)
  | Payload (e : PayloadError)
deriving DecidableEq

/-- A successful full-file write: its path and contents. -/
abbrev WriteEvent := RPath × String

/-- `BagIt::write_manifest_file`: join the payload lines with `\n` and
write the whole file. -/
def writeManifestFile (fs : FS) (bagPath : RPath) (filename : String) (lines : List String) :
    Except Nat WriteEvent :=
  let manifest_path := bagPath.join (RPath.rel [filename])
  match fs.writeRes manifest_path with
  | some k => .error k
  | none => .ok (manifest_path, String.intercalate "\n" lines)

/-- Checksums of the tag-manifest source files, in order, first failure
aborting (`join_all` followed by `collect::<Result<_, _>>`). -/
def collectChecksums (fs : FS) (digest : List Nat → List Nat) (base : RPath) :
    List String → Except ChecksumComputeError (List Checksum)
  | [] => .ok []
  | name :: rest =>
    match compute_checksum_file fs digest (base.join (RPath.rel [name])) with
    | .error e => .error e
    | .ok c =>
      match collectChecksums fs digest base rest with
      | .error e => .error e
      | .ok cs => .ok (c :: cs)

/-- The files covered by the tag manifest. -/
def tagManifestItems (b : BagIt) : List String :=
  ["bagit.txt", "bag-info.txt", b.manifestName]

/-- `BagIt::write_tagmanifest_file`: checksum the three tag files, build
their payload entries — silently dropping any whose construction fails
(`filter_map(.. .ok())`) — and write them in manifest line format. -/
def writeTagmanifestFile (fs : FS) (digest : List Nat → List Nat) (b : BagIt) :
    Except GenerateError WriteEvent :=
  match collectChecksums fs digest b.path (tagManifestItems b) with
  | .error e => .error (.ComputeChecksum e)
  | .ok checksums =>
    let payloads := ((tagManifestItems b).zip checksums).filterMap
      (fun pc => match Payload.new fs b.path (RPath.rel [pc.1]) pc.2 with
                 | .ok p => some p
                 | .error _ => none)
    match writeManifestFile fs b.path b.tagmanifestName (payloads.map Payload.toLine) with
    | .error k => .error (.Finalize k)
    | .ok ev => .ok ev

/-- The summary tag `finalize` appends: count of payloads and sum of their
byte sizes. -/
def finalizeOxumTag (b : BagIt) : Metadata :=
  .PayloadOctetStreamSummary ((b.items.map Payload.bytes).sum) b.items.length

/-- `BagIt::finalize`: write the payload manifest, the declaration, the
info file (after appending the summary tag to `self.tags`), and the tag
manifest. Returns the result, the bag after mutation, and the write events
performed. -/
def BagIt.finalize (fs : FS) (digest : List Nat → List Nat) (b : BagIt) :
    Except GenerateError Unit × BagIt × List WriteEvent :=
  match writeManifestFile fs b.path b.manifestName (b.items.map Payload.toLine) with
  | .error k => (.error (.Finalize k), b, [])
  | .ok manifestEv =>
    match writeManifestFile fs b.path "bagit.txt"
          ([Metadata.BagitVersion 1 0, Metadata.Encoding].map Metadata.toLine) with
    | .error k => (.error (.Finalize k), b, [manifestEv])
    | .ok bagitEv =>
      let b2 : BagIt := { b with tags := b.tags ++ [finalizeOxumTag b] }
      match writeManifestFile fs b.path "bag-info.txt" (b2.tags.map Metadata.toLine) with
      | .error k => (.error (.Finalize k), b2, [manifestEv, bagitEv])
      | .ok infoEv =>
        match writeTagmanifestFile fs digest b2 with
        | .error e => (.error e, b2, [manifestEv, bagitEv, infoEv])
        | .ok tagEv => (.ok (), b2, [manifestEv, bagitEv, infoEv, tagEv])

end Bagit

namespace Bagit

/-! ## Concrete fixtures

Small concrete filesystems used to evaluate the embedded operations on
explicit inputs (witnesses and counterexamples).
-/

/-- The bag root used by the fixtures. -/
def sampleRoot : RPath := ⟨true, ["bag"]⟩

/-- Look up the line table of a fixture filesystem. -/
def lookupLines (tbl : List (RPath × List String)) (p : RPath) : Option (List String) :=
  (tbl.find? (fun e => e.1 == p)).map (fun e => e.2)

/-- A fixture filesystem: `root` is the only directory, `tbl` maps the
regular files to their lines, canonicalization is the identity, reads of
raw bytes and sizes fail, and writes succeed. -/
def fsOfTable (root : RPath) (tbl : List (RPath × List String)) : FS where
  isDir := fun p => p == root
  pathExists := fun p => p == root || (lookupLines tbl p).isSome
  isFile := fun p => (lookupLines tbl p).isSome
  openRes := fun p => if (lookupLines tbl p).isSome then .ok () else .error 2
  linesRes := fun p =>
    match lookupLines tbl p with
    | some ls => .ok ls
    | none => .error 2
  bytesRes := fun _ => .error 2
  sizeRes := fun _ => .error 2
  readDirRes := fun p => if p == root then .ok (tbl.map (fun e => e.1)) else .error 2
  canon := fun p => .ok p
  writeRes := fun _ => none

/-- The declaration lines shared by the read fixtures. -/
def sampleBagitLines : List String :=
  ["BagIt-Version: 1.0", "Tag-File-Character-Encoding: UTF-8"]

/-- Fixture for the containment claim: canonicalization resolves the `..`
escape to a path outside the bag root. -/
def fsEscape : FS :=
  { fsOfTable sampleRoot [] with
    canon := fun p =>
      if p == RPath.mk true ["bag", "..", "escape.txt"] then .ok ⟨true, ["escape.txt"]⟩
      else .ok p }

/-- The single payload file of the token fixtures. -/
def samplePayloadFile : RPath := ⟨true, ["bag", "data", "f.txt"]⟩

/-- Fixture for the manifest-token claims: one payload file with known
bytes and size. -/
def fsTokens : FS :=
  { fsOfTable sampleRoot [(samplePayloadFile, [])] with
    bytesRes := fun p => if p == samplePayloadFile then .ok [1, 2, 3] else .error 2
    sizeRes := fun p => if p == samplePayloadFile then .ok 3 else .error 2 }

/-- Digest fixture hashing everything to the byte `0xaa`. -/
def digAA : List Nat → List Nat := fun _ => [170]

/-- Fixture bag for the declaration-check claim: a well-formed `bagit.txt`
only. -/
def fsDecl : FS :=
  fsOfTable sampleRoot [(bagitPath sampleRoot, sampleBagitLines)]

/-- Fixture bag for the oxum claim: well-formed declaration, a bag-info
declaring one stream, and an empty payload manifest. -/
def fsOxum : FS :=
  fsOfTable sampleRoot
    [(bagitPath sampleRoot, sampleBagitLines),
     (baginfoPath sampleRoot, ["Payload-Oxum: 0.1"]),
     (⟨true, ["bag", "manifest-sha256.txt"]⟩, [])]

/-- Fixture bag for the missing-algorithm claim: a well-formed declaration
and no manifest at all. -/
def fsNoManifest : FS :=
  fsOfTable sampleRoot [(bagitPath sampleRoot, sampleBagitLines)]

/-- Path of the manifest used by the blank-line fixture. -/
def blankManifest : RPath := ⟨true, ["bag", "manifest-sha256.txt"]⟩

/-- Fixture manifest containing a single blank line. -/
def fsBlank : FS :=
  fsOfTable sampleRoot [(blankManifest, [""])]

/-- Fixture for the finalize claims: every write succeeds. -/
def bagThree : BagIt :=
  ⟨sampleRoot,
   [⟨⟨"aa"⟩, RPath.rel ["data", "x"], 10⟩,
    ⟨⟨"bb"⟩, RPath.rel ["data", "y"], 20⟩,
    ⟨⟨"cc"⟩, RPath.rel ["data", "z"], 30⟩],
   .Sha256, []⟩

/-- The empty bag used by the finalize counterexample. -/
def bagEmpty : BagIt := ⟨sampleRoot, [], .Sha256, []⟩

/-- Digest fixture hashing everything to the byte `0x00`. -/
def digZero : List Nat → List Nat := fun _ => [0]

/-- Fixture for the finalize omission counterexample: the three tag files
are present and readable, but the size query for `bagit.txt` fails with
error kind 5 while the others succeed. -/
def fsOmit : FS :=
  { fsOfTable sampleRoot
      [(bagitPath sampleRoot, []),
       (baginfoPath sampleRoot, []),
       (⟨true, ["bag", "manifest-sha256.txt"]⟩, [])] with
    bytesRes := fun _ => .ok [0]
    sizeRes := fun p =>
      if p == bagitPath sampleRoot then .error 5
      else if p == baginfoPath sampleRoot then .ok 10
      else if p == RPath.mk true ["bag", "manifest-sha256.txt"] then .ok 20
      else .error 2 }

end Bagit

namespace Bagit

/-! ## Support lemmas: decimal rendering and parsing round-trip -/

/-- Decoding inverts the fuelled digit expansion. -/
theorem ofDecDigits_decDigitsAux (fuel : Nat) :
    ∀ n, n ≤ fuel → ofDecDigits (decDigitsAux fuel n) = n := by
  induction fuel with
  | zero => intro n hn; interval_cases n; rfl
  | succ fuel ih =>
    intro n hn
    by_cases h0 : n = 0
    · subst h0; simp [decDigitsAux, ofDecDigits]
    · have hdiv : n / 10 ≤ fuel := by
        have : n / 10 < n := Nat.div_lt_self (Nat.pos_of_ne_zero h0) (by omega)
        omega
      simp only [decDigitsAux, h0, if_false, ofDecDigits, ih _ hdiv]
      omega

/-- Every decimal digit produced is below ten. -/
theorem decDigitsAux_lt_ten (fuel : Nat) : ∀ n d, d ∈ decDigitsAux fuel n → d < 10 := by
  induction fuel with
  | zero => intro n d hd; simp [decDigitsAux] at hd
  | succ fuel ih =>
    intro n d hd
    by_cases h0 : n = 0
    · subst h0; simp [decDigitsAux] at hd
    · simp only [decDigitsAux, h0, if_false, List.mem_cons] at hd
      rcases hd with h | h
      · omega
      · exact ih _ _ h

/-- Code point of a digit character. -/
theorem decChar_toNat (d : Nat) (h : d < 10) : (decChar d).toNat = 48 + d := by
  interval_cases d <;> decide

/-- Digit characters pass the digit test. -/
theorem decChar_isDigit (d : Nat) (h : d < 10) : decIsDigit (decChar d) = true := by
  interval_cases d <;> decide

/-- One step of the decimal fold. -/
theorem foldDecDigits_append_one (cs : List Char) (c : Char) :
    foldDecDigits (cs ++ [c]) = 10 * foldDecDigits cs + (c.toNat - 48) := by
  simp [foldDecDigits, List.foldl_append]

/-- The decimal fold inverts rendering of a digit list. -/
theorem foldDec_reverse_map (l : List Nat) (h : ∀ d ∈ l, d < 10) :
    foldDecDigits ((l.map decChar).reverse) = ofDecDigits l := by
  induction l with
  | nil => rfl
  | cons d l ih =>
    have hd : d < 10 := h d (List.mem_cons_self d l)
    have hrest : ∀ x ∈ l, x < 10 := fun x hx => h x (List.mem_cons_of_mem d hx)
    simp only [List.map_cons, List.reverse_cons, foldDecDigits_append_one, ih hrest,
      decChar_toNat d hd, ofDecDigits]
    omega

/-- Decimal rendering is never empty. -/
theorem natToDecChars_ne_nil (n : Nat) : natToDecChars n ≠ [] := by
  by_cases h0 : n = 0
  · subst h0; decide
  · simp only [natToDecChars, h0, if_false]
    intro hcontra
    have : decDigitsAux n n ≠ [] := by
      cases n with
      | zero => omega
      | succ m => simp [decDigitsAux]
    simp only [decDigits] at hcontra
    rw [List.reverse_eq_nil_iff, List.map_eq_nil_iff] at hcontra
    exact this hcontra

/-- Decimal rendering consists of digit characters. -/
theorem natToDecChars_all_digits (n : Nat) : (natToDecChars n).all decIsDigit = true := by
  by_cases h0 : n = 0
  · subst h0; decide
  · simp only [natToDecChars, h0, if_false, List.all_eq_true]
    intro c hc
    rw [List.mem_reverse, List.mem_map] at hc
    obtain ⟨d, hd, rfl⟩ := hc
    exact decChar_isDigit d (decDigitsAux_lt_ten n n d hd)

/-- The decimal fold inverts rendering. -/
theorem foldDecDigits_natToDecChars (n : Nat) : foldDecDigits (natToDecChars n) = n := by
  by_cases h0 : n = 0
  · subst h0; decide
  · simp only [natToDecChars, h0, if_false, decDigits]
    rw [foldDec_reverse_map _ (decDigitsAux_lt_ten n n)]
    exact ofDecDigits_decDigitsAux n n le_rfl

/-- A digit character is not the sign `+`. -/
theorem digit_ne_plus (c : Char) (h : decIsDigit c = true) : c ≠ '+' := by
  intro hc; subst hc; simp [decIsDigit] at h

/-- Rust parsing of unsigned integers inverts decimal rendering within
range. -/
theorem parseRustUnsigned_natToDec (cap n : Nat) (h : n ≤ cap) :
    parseRustUnsigned cap (natToDec n) = some n := by
  have hdata : (natToDec n).data = natToDecChars n := rfl
  have hne := natToDecChars_ne_nil n
  have hall := natToDecChars_all_digits n
  have hhead : ¬ (natToDecChars n).head? = some '+' := by
    cases hcs : natToDecChars n with
    | nil => exact absurd hcs hne
    | cons c cs =>
      have hc : decIsDigit c = true := by
        have hall2 := hall
        rw [hcs, List.all_cons, Bool.and_eq_true] at hall2
        exact hall2.1
      simp only [List.head?, Option.some.injEq]
      exact digit_ne_plus c hc
  simp only [parseRustUnsigned, hdata]
  rw [if_neg hhead, if_pos ⟨hne, hall⟩, foldDecDigits_natToDecChars, if_pos h]

/-! ## Support lemmas: `split_once` -/

/-- Splitting at the head occurrence. -/
theorem splitOnceL_self (c : Char) (t vs : List Char) :
    splitOnceL (c :: t) ((c :: t) ++ vs) = some ([], vs) := by
  simp only [List.cons_append, splitOnceL]
  rw [if_pos]
  · simp [List.length_cons, List.drop_succ_cons, List.drop_left]
  · rw [List.isPrefixOf_iff_prefix]
    exact ⟨vs, by simp⟩

/-- A head character different from the separator head is skipped. -/
theorem splitOnceL_cons_ne (c k : Char) (t rest : List Char) (hck : ¬ c = k) :
    splitOnceL (c :: t) (k :: rest) =
      (splitOnceL (c :: t) rest).map (fun p => (k :: p.1, p.2)) := by
  simp only [splitOnceL]
  rw [if_neg]
  simp [List.isPrefixOf, beq_eq_false_iff_ne.mpr hck]

/-- `split_once` finds a separator planted after characters free of its
head. -/
theorem splitOnceL_append (c : Char) (t ks vs : List Char) (hc : c ∉ ks) :
    splitOnceL (c :: t) (ks ++ (c :: t) ++ vs) = some (ks, vs) := by
  induction ks with
  | nil => simpa using splitOnceL_self c t vs
  | cons k ks ih =>
    have hck : ¬ c = k := fun hck => hc (hck ▸ List.mem_cons_self k ks)
    have ihh := ih (fun hmem => hc (List.mem_cons_of_mem k hmem))
    rw [show ((k :: ks) ++ (c :: t) ++ vs) = k :: (ks ++ (c :: t) ++ vs) from by simp]
    rw [splitOnceL_cons_ne c k t _ hck, ihh]
    rfl

end Bagit

namespace Bagit

theorem splitOnce_key_value (k v : String) (hk : ':' ∉ k.data) :
    splitOnce (k ++ ": " ++ v) ": " = some (k, v) := by
  have hdata : (k ++ ": " ++ v).data = k.data ++ (':' :: [' ']) ++ v.data := by
    simp [String.data_append]
  unfold splitOnce
  rw [show (": " : String).data = ':' :: [' '] from rfl, hdata,
    splitOnceL_append ':' [' '] k.data v.data hk]
  rfl

theorem all_digits_getLast (cs : List Char) (hne : cs ≠ []) (hall : cs.all decIsDigit = true) :
    ∃ c, cs.getLast? = some c ∧ decIsDigit c = true := by
  refine ⟨cs.getLast hne, List.getLast?_eq_getLast cs hne, ?_⟩
  rw [List.all_eq_true] at hall
  exact hall _ (List.getLast_mem hne)

theorem all_digits_head (cs : List Char) (hne : cs ≠ []) (hall : cs.all decIsDigit = true) :
    ∃ c, cs.head? = some c ∧ decIsDigit c = true := by
  cases cs with
  | nil => exact absurd rfl hne
  | cons c cs =>
    rw [List.all_cons, Bool.and_eq_true] at hall
    exact ⟨c, rfl, hall.1⟩

theorem digit_not_ws (c : Char) (h : decIsDigit c = true) : rustIsWhitespace c = false := by
  simp only [decIsDigit, decide_eq_true_eq] at h
  simp only [rustIsWhitespace, ite_eq_right_iff]
  intro hcontra
  omega

theorem validate_format_ok (k v : String) (hkne : ¬ k.data = []) (hvne : ¬ v.data = [])
    (hkc : k.data.contains ':' = false)
    (hh : (match v.data.head? with
           | some c => rustIsWhitespace c
           | none => false) = false)
    (hl : (match v.data.getLast? with
           | some c => rustIsWhitespace c
           | none => false) = false) :
    Metadata.validate_format k v = .ok () := by
  unfold Metadata.validate_format
  rw [if_neg (by simp [hkne, hvne]), if_neg (by simpa using hkc), if_neg (by simp [hh, hl])]

theorem pair_value_data (a b : Nat) :
    (natToDec a ++ "." ++ natToDec b).data = natToDecChars a ++ ('.' :: []) ++ natToDecChars b := by
  simp [String.data_append, natToDec]

theorem validate_pair_value (key : String) (hkne : ¬ key.data = [])
    (hkc : key.data.contains ':' = false) (a b : Nat) :
    Metadata.validate_format key (natToDec a ++ "." ++ natToDec b) = .ok () := by
  obtain ⟨ch, hch, hchd⟩ := all_digits_head _ (natToDecChars_ne_nil a) (natToDecChars_all_digits a)
  obtain ⟨cl, hcl, hcld⟩ := all_digits_getLast _ (natToDecChars_ne_nil b) (natToDecChars_all_digits b)
  have hvne : ¬ (natToDec a ++ "." ++ natToDec b).data = [] := by
    rw [pair_value_data]
    intro hcontra
    rw [List.append_eq_nil] at hcontra
    exact natToDecChars_ne_nil b hcontra.2
  have hhead : (natToDec a ++ "." ++ natToDec b).data.head? = some ch := by
    rw [pair_value_data]
    cases hcs : natToDecChars a with
    | nil => exact absurd hcs (natToDecChars_ne_nil a)
    | cons x xs =>
      rw [hcs] at hch
      simpa using hch
  have hlast : (natToDec a ++ "." ++ natToDec b).data.getLast? = some cl := by
    rw [pair_value_data]
    rw [show natToDecChars a ++ ('.' :: []) ++ natToDecChars b
          = (natToDecChars a ++ ['.']) ++ natToDecChars b from by simp]
    rw [List.getLast?_append_of_ne_nil _ (natToDecChars_ne_nil b), hcl]
  apply validate_format_ok _ _ hkne hvne hkc
  · rw [hhead]
    exact digit_not_ws ch hchd
  · rw [hlast]
    exact digit_not_ws cl hcld

theorem dot_not_in_decimal (a : Nat) : '.' ∉ natToDecChars a := by
  intro hmem
  have := (List.all_eq_true.mp (natToDecChars_all_digits a)) _ hmem
  simp [decIsDigit] at this

theorem splitOnce_pair (a b : Nat) :
    splitOnce (natToDec a ++ "." ++ natToDec b) "." = some (natToDec a, natToDec b) := by
  unfold splitOnce
  rw [show ("." : String).data = '.' :: [] from rfl, pair_value_data,
    splitOnceL_append '.' [] _ _ (dot_not_in_decimal a)]
  rfl

theorem from_str_toLine_version (a b : Nat) (ha : a ≤ u8Cap) (hb : b ≤ u8Cap) :
    Metadata.from_str ((Metadata.BagitVersion a b).toLine) = .ok (.BagitVersion a b) := by
  have hline : (Metadata.BagitVersion a b).toLine
      = KEY_VERSION ++ ": " ++ (natToDec a ++ "." ++ natToDec b) := rfl
  rw [hline]
  unfold Metadata.from_str
  simp only [splitOnce_key_value _ _ (by decide : ':' ∉ KEY_VERSION.data),
    validate_pair_value KEY_VERSION (by decide) (by decide) a b,
    splitOnce_pair a b, parseRustUnsigned_natToDec u8Cap a ha,
    parseRustUnsigned_natToDec u8Cap b hb, if_pos]

theorem from_str_toLine_oxum (a b : Nat) (ha : a ≤ usizeCap) (hb : b ≤ usizeCap) :
    Metadata.from_str ((Metadata.PayloadOctetStreamSummary a b).toLine)
      = .ok (.PayloadOctetStreamSummary a b) := by
  have hline : (Metadata.PayloadOctetStreamSummary a b).toLine
      = KEY_OXUM ++ ": " ++ (natToDec a ++ "." ++ natToDec b) := rfl
  rw [hline]
  unfold Metadata.from_str
  simp only [splitOnce_key_value _ _ (by decide : ':' ∉ KEY_OXUM.data),
    validate_pair_value KEY_OXUM (by decide) (by decide) a b,
    splitOnce_pair a b, parseRustUnsigned_natToDec usizeCap a ha,
    parseRustUnsigned_natToDec usizeCap b hb]
  rw [if_neg (show ¬ KEY_OXUM = KEY_VERSION from by decide),
    if_neg (show ¬ KEY_OXUM = KEY_ENCODING from by decide), if_pos trivial]

theorem from_str_toLine_custom (k v : String)
    (hkne : ¬ k.data = []) (hvne : ¬ v.data = [])
    (hkc : k.data.contains ':' = false)
    (hh : (match v.data.head? with
           | some c => rustIsWhitespace c
           | none => false) = false)
    (hl : (match v.data.getLast? with
           | some c => rustIsWhitespace c
           | none => false) = false)
    (h1 : ¬ k = KEY_VERSION) (h2 : ¬ k = KEY_ENCODING) (h3 : ¬ k = KEY_OXUM) :
    Metadata.from_str ((Metadata.Custom k v).toLine) = .ok (.Custom k v) := by
  have hkmem : ':' ∉ k.data := by
    intro hmem
    have helem : k.data.contains ':' = true := List.elem_eq_true_of_mem hmem
    rw [helem] at hkc
    cases hkc
  have hline : (Metadata.Custom k v).toLine = k ++ ": " ++ v := rfl
  rw [hline]
  unfold Metadata.from_str
  simp only [splitOnce_key_value _ _ hkmem, validate_format_ok _ _ hkne hvne hkc hh hl]
  rw [if_neg h1, if_neg h2, if_neg h3]

end Bagit

namespace Bagit

/-- Claim C3 (counterexample): the tag `Custom "BagIt-Version" "hello"`
satisfies every stated key/value invariant, yet parsing its serialized form
does not return it: the reserved key routes parsing into the typed variant
and fails. -/
theorem metadata_roundtrip_reserved_key_cex :
    Metadata.wellFormed (.Custom "BagIt-Version" "hello") = true ∧
    Metadata.from_str ((Metadata.Custom "BagIt-Version" "hello").toLine)
      = .error (.ValueParsing KEY_VERSION) ∧
    ¬ Metadata.from_str ((Metadata.Custom "BagIt-Version" "hello").toLine)
      = .ok (.Custom "BagIt-Version" "hello") := by
  decide

/-- Claim C3 (amended): for every well-formed tag whose `Custom` key is not
one of the reserved typed keys, parsing the serialized form returns the same
tag: `Metadata::from_str(tag.to_string()) == Ok(tag)`. -/
theorem metadata_roundtrip (t : Metadata) (hwf : t.wellFormed = true)
    (hres : t.reservedCustomKey = false) :
    Metadata.from_str t.toLine = .ok t := by
  cases t with
  | Custom k v =>
    simp only [Metadata.wellFormed, Bool.and_eq_true, decide_eq_true_eq,
      Bool.not_eq_true'] at hwf
    obtain ⟨⟨⟨⟨hkne, hkc⟩, hvne⟩, hh⟩, hl⟩ := hwf
    simp only [Metadata.reservedCustomKey, Bool.or_eq_false_iff, decide_eq_false_iff_not] at hres
    obtain ⟨⟨h1, h2⟩, h3⟩ := hres
    refine from_str_toLine_custom k v hkne hvne hkc ?_ ?_ h1 h2 h3
    · cases hcs : v.data.head? with
      | none => rfl
      | some c =>
        rw [hcs] at hh
        simpa using hh
    · cases hcs : v.data.getLast? with
      | none => rfl
      | some c =>
        rw [hcs] at hl
        simpa using hl
  | BagitVersion a b =>
    simp only [Metadata.wellFormed, decide_eq_true_eq] at hwf
    exact from_str_toLine_version a b hwf.1 hwf.2
  | Encoding => decide
  | PayloadOctetStreamSummary a b =>
    simp only [Metadata.wellFormed, decide_eq_true_eq] at hwf
    exact from_str_toLine_oxum a b hwf.1 hwf.2

/-- Claim C3 (witness): the amended round-trip evaluated on concrete
well-formed tags of each shape. -/
theorem metadata_roundtrip_witness :
    (Metadata.wellFormed (.Custom "Good-Tag" "Good Value") = true ∧
     Metadata.from_str ((Metadata.Custom "Good-Tag" "Good Value").toLine)
       = .ok (.Custom "Good-Tag" "Good Value")) ∧
    Metadata.from_str ((Metadata.BagitVersion 43 69).toLine) = .ok (.BagitVersion 43 69) ∧
    Metadata.from_str ((Metadata.PayloadOctetStreamSummary 420 69).toLine)
      = .ok (.PayloadOctetStreamSummary 420 69) := by
  refine ⟨⟨by decide, metadata_roundtrip _ (by decide) (by decide)⟩,
    metadata_roundtrip _ (by decide) (by decide),
    metadata_roundtrip _ (by decide) (by decide)⟩

end Bagit

namespace Bagit

/-- Claim C1: for every manifest line with at least the two tokens, if the
canonicalized join of the line's relative path with the bag root does not
have the canonicalized bag root as a path prefix, `Payload::from_manifest`
returns `NotInsideBag` and no payload is produced. Canonicalization is the
oracle `fs.canon`, so `../` traversals, absolute paths and symlink escapes
are all instances of the hypothesis. -/
theorem from_manifest_not_inside_bag (fs : FS) (digest : List Nat → List Nat)
    (line : String) (base : RPath) (cs rel : String) (rest : List String) (p b : RPath)
    (hsplit : splitWhitespace line = cs :: rel :: rest)
    (hp : fs.canon (base.join (RPath.ofString rel)) = .ok p)
    (hb : fs.canon base = .ok b)
    (hpre : p.startsWith b = false) :
    Payload.from_manifest fs digest line base = .error .NotInsideBag := by
  simp only [Payload.from_manifest, hsplit, Payload.fromTokens, hp, hb, hpre]
  exact if_pos trivial

/-- Claim C1 (witness): a `../` traversal resolved by the fixture
canonicalizer lands outside the root and is rejected. -/
theorem from_manifest_not_inside_bag_witness :
    splitWhitespace "aa ../escape.txt" = ["aa", "../escape.txt"] ∧
    Payload.from_manifest fsEscape digAA "aa ../escape.txt" sampleRoot
      = .error .NotInsideBag :=
  ⟨by decide,
   from_manifest_not_inside_bag fsEscape digAA "aa ../escape.txt" sampleRoot
     "aa" "../escape.txt" [] ⟨true, ["escape.txt"]⟩ sampleRoot
     (by decide) (by decide) (by decide) (by decide)⟩

/-- Claim C2 (counterexample): a line with three whitespace-separated
tokens is not rejected with `InvalidLine`; the first two tokens are used
and the third is ignored, and on the fixture the line validates fully. -/
theorem from_manifest_extra_token_cex :
    (splitWhitespace "aa data/f.txt extra").length = 3 ∧
    Payload.from_manifest fsTokens digAA "aa data/f.txt extra" sampleRoot
      = .ok ⟨⟨"aa"⟩, ⟨false, ["data", "f.txt"]⟩, 3⟩ := by
  decide

/-- Claim C2 (amended): a manifest line parses only when it has at least
two whitespace-separated tokens — fewer than two yields `InvalidLine` —
and the result depends only on the first two tokens: any trailing tokens
are ignored. -/
theorem from_manifest_token_rule (fs : FS) (digest : List Nat → List Nat)
    (base : RPath) (line line2 : String) :
    ((splitWhitespace line).length < 2 →
      Payload.from_manifest fs digest line base = .error .InvalidLine) ∧
    (∀ cs rel r1 r2, splitWhitespace line = cs :: rel :: r1 →
      splitWhitespace line2 = cs :: rel :: r2 →
      Payload.from_manifest fs digest line base
        = Payload.from_manifest fs digest line2 base) := by
  constructor
  · intro hlen
    cases hsp : splitWhitespace line with
    | nil => simp [Payload.from_manifest, hsp]
    | cons a as =>
      cases as with
      | nil => simp [Payload.from_manifest, hsp]
      | cons b bs =>
        rw [hsp] at hlen
        simp at hlen
        omega
  · intro cs rel r1 r2 h1 h2
    simp only [Payload.from_manifest, h1, h2]

/-- Claim C2 (witness): the amended token rule evaluated on concrete
lines: a one-token line is rejected with `InvalidLine`, and a line with a
trailing third token validates exactly like the two-token line. -/
theorem from_manifest_token_rule_witness :
    Payload.from_manifest fsTokens digAA "onlyonetoken" sampleRoot = .error .InvalidLine ∧
    Payload.from_manifest fsTokens digAA "aa data/f.txt extra" sampleRoot
      = Payload.from_manifest fsTokens digAA "aa data/f.txt" sampleRoot :=
  ⟨(from_manifest_token_rule fsTokens digAA sampleRoot "onlyonetoken" "x").1 (by decide),
   (from_manifest_token_rule fsTokens digAA sampleRoot "aa data/f.txt extra"
     "aa data/f.txt").2 "aa" "data/f.txt" ["extra"] [] (by decide) (by decide)⟩

/-- Claim C8: two `Checksum` values are equal exactly when their hex text
is equal (case-sensitive); construction from a string applies no further
encoding; and during manifest validation the freshly computed digest is
compared with the manifest-declared checksum by exact text equality, any
mismatch failing with `ChecksumDiffers`. -/
theorem checksum_text_equality (fs : FS) (digest : List Nat → List Nat)
    (line : String) (base : RPath) (cs rel : String) (rest : List String)
    (p b : RPath) (computed : Checksum)
    (hsplit : splitWhitespace line = cs :: rel :: rest)
    (hp : fs.canon (base.join (RPath.ofString rel)) = .ok p)
    (hb : fs.canon base = .ok b)
    (hpre : p.startsWith b = true)
    (hcomp : compute_checksum_file fs digest p = .ok computed)
    (hne : computed.hex ≠ cs) :
    (∀ c1 c2 : Checksum, c1 = c2 ↔ c1.hex = c2.hex) ∧
    (∀ s, (Checksum.ofString s).hex = s) ∧
    Payload.from_manifest fs digest line base = .error .ChecksumDiffers := by
  refine ⟨fun c1 c2 => ⟨fun h => by rw [h], fun h => by cases c1; cases c2; simpa using h⟩,
    fun s => rfl, ?_⟩
  have hneq : computed ≠ Checksum.ofString cs := fun h => hne (congrArg Checksum.hex h)
  simp only [Payload.from_manifest, hsplit, Payload.fromTokens, hp, hb, hpre, hcomp]
  simp only [Bool.true_eq_false, if_false]
  rw [if_pos hneq]

/-- Claim C8 (witness): on the fixture the computed digest is `aa`; a
manifest line declaring `bb` fails with `ChecksumDiffers`. -/
theorem checksum_text_equality_witness :
    compute_checksum_file fsTokens digAA samplePayloadFile = .ok ⟨"aa"⟩ ∧
    Payload.from_manifest fsTokens digAA "bb data/f.txt" sampleRoot
      = .error .ChecksumDiffers :=
  ⟨by decide,
   (checksum_text_equality fsTokens digAA "bb data/f.txt" sampleRoot "bb" "data/f.txt" []
     samplePayloadFile sampleRoot ⟨"aa"⟩ (by decide) (by decide) (by decide) (by decide)
     (by decide) (by decide)).2.2⟩

end Bagit

namespace Bagit

/-- Helper for claim C10: a blank line planted after lines that validate
aborts the whole per-line loop with `InvalidLine`. -/
theorem processManifestLines_blank (fs : FS) (digest : List Nat → List Nat)
    (dir : RPath) (post : List String) :
    ∀ pre : List String,
      (∀ l ∈ pre, ∃ pl, Payload.from_manifest fs digest l dir = .ok pl) →
      processManifestLines fs digest dir (pre ++ "" :: post)
        = .error (.ProcessManifestLine .InvalidLine) := by
  intro pre
  induction pre with
  | nil =>
    intro _
    simp only [List.nil_append, processManifestLines]
    rw [show Payload.from_manifest fs digest "" dir = .error .InvalidLine from rfl]
  | cons l pre ih =>
    intro hpre
    obtain ⟨pl, hpl⟩ := hpre l (List.mem_cons_self l pre)
    have ihh := ih (fun x hx => hpre x (List.mem_cons_of_mem l hx))
    simp only [List.cons_append, processManifestLines, hpl, List.append_eq, ihh]

/-- Claim C10: an empty line anywhere in a checksum or tag manifest is not
skipped: it reaches the line parser, splits into zero whitespace tokens,
and aborts the whole validation with `InvalidLine` (wrapped as
`ProcessManifestLine`), provided the preceding lines validate. -/
theorem manifest_blank_line_aborts (fs : FS) (digest : List Nat → List Nat)
    (manifest dir : RPath) (pre post : List String)
    (hopen : fs.openRes manifest = .ok ())
    (hlines : fs.linesRes manifest = .ok (pre ++ "" :: post))
    (hpre : ∀ l ∈ pre, ∃ pl, Payload.from_manifest fs digest l dir = .ok pl) :
    splitWhitespace "" = [] ∧
    Payload.from_manifest fs digest "" dir = .error .InvalidLine ∧
    Manifest.get_validate_payloads fs digest manifest dir
      = .error (.ProcessManifestLine .InvalidLine) := by
  refine ⟨rfl, rfl, ?_⟩
  simp only [Manifest.get_validate_payloads, hopen, hlines]
  exact processManifestLines_blank fs digest dir post pre hpre

/-- Claim C10 (witness): a manifest consisting of a single blank line fails
validation with `InvalidLine`. -/
theorem manifest_blank_line_aborts_witness :
    splitWhitespace "" = [] ∧
    Payload.from_manifest fsBlank digAA "" sampleRoot = .error .InvalidLine ∧
    Manifest.get_validate_payloads fsBlank digAA blankManifest sampleRoot
      = .error (.ProcessManifestLine .InvalidLine) :=
  manifest_blank_line_aborts fsBlank digAA blankManifest sampleRoot [] []
    (by decide) (by decide) (by simp)

end Bagit

namespace Bagit

/-- Errors of the per-line loop are always `ProcessManifestLine`. -/
theorem processManifestLines_error_shape (fs : FS) (digest : List Nat → List Nat)
    (dir : RPath) : ∀ lines e, processManifestLines fs digest dir lines = .error e →
    ∃ pe, e = .ProcessManifestLine pe := by
  intro lines
  induction lines with
  | nil => intro e h; simp [processManifestLines] at h
  | cons l rest ih =>
    intro e h
    simp only [processManifestLines] at h
    cases hfm : Payload.from_manifest fs digest l dir with
    | error pe =>
      simp only [hfm, Except.error.injEq] at h
      exact ⟨pe, h.symm⟩
    | ok pl =>
      simp only [hfm] at h
      cases hrest : processManifestLines fs digest dir rest with
      | error e2 =>
        simp only [hrest, Except.error.injEq] at h
        obtain ⟨pe, hpe⟩ := ih e2 hrest
        exact ⟨pe, by rw [← h, hpe]⟩
      | ok items => simp [hrest] at h

/-- Errors of manifest validation are open, read-line or per-line errors. -/
theorem get_validate_payloads_error_shape (fs : FS) (digest : List Nat → List Nat)
    (manifest dir : RPath) (e : ReadError)
    (h : Manifest.get_validate_payloads fs digest manifest dir = .error e) :
    (∃ k, e = .OpenFile k) ∨ (∃ k, e = .ReadLine k) ∨ (∃ pe, e = .ProcessManifestLine pe) := by
  simp only [Manifest.get_validate_payloads] at h
  cases hop : fs.openRes manifest with
  | error k =>
    simp only [hop, Except.error.injEq] at h
    exact Or.inl ⟨k, h.symm⟩
  | ok u =>
    cases u
    simp only [hop] at h
    cases hln : fs.linesRes manifest with
    | error k =>
      simp only [hln, Except.error.injEq] at h
      exact Or.inr (Or.inl ⟨k, h.symm⟩)
    | ok lines =>
      simp only [hln] at h
      exact Or.inr (Or.inr (processManifestLines_error_shape fs digest dir lines e h))

/-- Errors of the oxum cross-check always name the disagreeing field. -/
theorem oxumCheck_error_shape (ps : List Payload) :
    ∀ tags e, oxumCheck ps tags = .error e → ∃ f, e = .BagInfoOxum f := by
  intro tags
  induction tags with
  | nil => intro e h; simp [oxumCheck] at h
  | cons t rest ih =>
    intro e h
    cases t with
    | PayloadOctetStreamSummary o s =>
      simp only [oxumCheck] at h
      by_cases hs : s ≠ ps.length
      · rw [if_pos hs] at h
        exact ⟨"stream_count", (Except.error.injEq _ _ |>.mp h).symm⟩
      · rw [if_neg hs] at h
        by_cases ho : o ≠ (ps.map Payload.bytes).sum
        · rw [if_pos ho] at h
          exact ⟨"octet_count", (Except.error.injEq _ _ |>.mp h).symm⟩
        · rw [if_neg ho] at h
          exact ih e h
    | Custom k v => exact ih e (by simpa [oxumCheck] using h)
    | BagitVersion a b => exact ih e (by simpa [oxumCheck] using h)
    | Encoding => exact ih e (by simpa [oxumCheck] using h)

/-- When no summary tag occurs, the oxum cross-check passes. -/
theorem oxumCheck_no_oxum (ps : List Payload) :
    ∀ tags, (∀ o s, Metadata.PayloadOctetStreamSummary o s ∉ tags) →
    oxumCheck ps tags = .ok () := by
  intro tags
  induction tags with
  | nil => intro _; rfl
  | cons t rest ih =>
    intro hno
    have hrest : ∀ o s, Metadata.PayloadOctetStreamSummary o s ∉ rest :=
      fun o s hmem => hno o s (List.mem_cons_of_mem t hmem)
    cases t with
    | PayloadOctetStreamSummary o s => exact absurd (List.mem_cons_self _ rest) (hno o s)
    | Custom k v => simpa [oxumCheck] using ih hrest
    | BagitVersion a b => simpa [oxumCheck] using ih hrest
    | Encoding => simpa [oxumCheck] using ih hrest

end Bagit

namespace Bagit

/-- The manifest stages never produce a declaration error. -/
theorem validateManifests_no_decl (fs : FS) (digest : List Nat → List Nat)
    (dir : RPath) (algo : Algorithm) (bag_info : Option (List Metadata)) (e : BagDeclarationError) :
    BagIt.validateManifests fs digest dir algo bag_info ≠ .error (.BagDeclaration e) := by
  intro hc
  unfold BagIt.validateManifests at hc
  cases hdl : fs.readDirRes dir with
  | error k => simp [hdl] at hc
  | ok files =>
    simp only [hdl] at hc
    cases hfind : Manifest.find_manifest fs files algo.name with
    | none => simp [hfind] at hc
    | some m =>
      simp only [hfind] at hc
      cases hval : Manifest.get_validate_payloads fs digest m dir with
      | error e2 =>
        simp only [hval, Except.error.injEq] at hc
        rcases get_validate_payloads_error_shape fs digest m dir e2 hval with ⟨k, hk⟩ | ⟨k, hk⟩ | ⟨pe, hpe⟩ <;>
          simp_all
      | ok payloads =>
        simp only [hval] at hc
        cases hox : (match bag_info with
                     | some tags => oxumCheck payloads tags
                     | none => (.ok () : Except ReadError Unit)) with
        | error e2 =>
          simp only [hox, Except.error.injEq] at hc
          have : ∃ f, e2 = .BagInfoOxum f := by
            cases bag_info with
            | none => simp at hox
            | some tags => exact oxumCheck_error_shape payloads tags e2 hox
          rcases this with ⟨f, hf⟩
          simp_all
        | ok u =>
          cases u
          simp only [hox] at hc
          cases hfindtm : Manifest.find_tag_manifest fs files algo.name with
          | none => simp [hfindtm] at hc
          | some tm =>
            simp only [hfindtm] at hc
            cases hvaltm : Manifest.get_validate_payloads fs digest tm dir with
            | error e2 =>
              simp only [hvaltm, Except.error.injEq] at hc
              rcases get_validate_payloads_error_shape fs digest tm dir e2 hvaltm with ⟨k, hk⟩ | ⟨k, hk⟩ | ⟨pe, hpe⟩ <;>
                simp_all
            | ok ps2 => simp [hvaltm] at hc

/-- The post-declaration stages never produce a declaration error. -/
theorem validateRest_no_decl (fs : FS) (digest : List Nat → List Nat)
    (dir : RPath) (algo : Algorithm) (e : BagDeclarationError) :
    BagIt.validateRest fs digest dir algo ≠ .error (.BagDeclaration e) := by
  intro hc
  unfold BagIt.validateRest at hc
  cases hinfoex : fs.pathExists (baginfoPath dir) with
  | false =>
    simp only [hinfoex, Bool.false_eq_true, if_false] at hc
    exact validateManifests_no_decl fs digest dir algo none e hc
  | true =>
    simp only [hinfoex, if_true] at hc
    cases hmr : MetadataFile.read fs (baginfoPath dir) with
    | error e2 => simp [hmr] at hc
    | ok tags =>
      simp only [hmr] at hc
      exact validateManifests_no_decl fs digest dir algo (some tags) e hc

/-- Reduction of `read_existing` to the declaration dispatch once the
directory and declaration file pass their checks. -/
theorem read_existing_decl_dispatch (fs : FS) (digest : List Nat → List Nat)
    (dir : RPath) (algo : Algorithm) (tags : List Metadata)
    (hdir : fs.isDir dir = true)
    (hex : fs.pathExists (bagitPath dir) = true)
    (hread : MetadataFile.read fs (bagitPath dir) = .ok tags) :
    BagIt.read_existing fs digest dir algo =
      (match declarationCheck tags with
       | .error e => .error (.BagDeclaration e)
       | .ok () => BagIt.validateRest fs digest dir algo) := by
  simp [BagIt.read_existing, hdir, hex, hread]

/-- Tag lists not headed by a version tag fail the declaration check naming
the version key. -/
theorem declarationCheck_no_version (tags : List Metadata)
    (h : ∀ a b rest, tags ≠ Metadata.BagitVersion a b :: rest) :
    declarationCheck tags = .error (.Tag KEY_VERSION) := by
  cases tags with
  | nil => rfl
  | cons t rest =>
    cases t with
    | BagitVersion a b => exact absurd rfl (h a b rest)
    | Custom k v => rfl
    | Encoding => rfl
    | PayloadOctetStreamSummary o s => rfl

/-- After a version tag, a missing or wrong second tag fails the
declaration check naming the encoding key. -/
theorem declarationCheck_no_encoding (a b : Nat) (rest : List Metadata)
    (h : ∀ rest2, rest ≠ Metadata.Encoding :: rest2) :
    declarationCheck (Metadata.BagitVersion a b :: rest) = .error (.Tag KEY_ENCODING) := by
  cases rest with
  | nil => rfl
  | cons t rest2 =>
    cases t with
    | Encoding => exact absurd rfl (h rest2)
    | Custom k v => rfl
    | BagitVersion x y => rfl
    | PayloadOctetStreamSummary o s => rfl

end Bagit

namespace Bagit

/-- Claim C5: given a directory whose `bagit.txt` parses into `tags`,
`read_existing` passes the declaration stage (produces no declaration
error) exactly when the tags are a version tag (any value) followed by the
encoding tag and nothing else; a wrong or missing tag at either position
yields the error naming that key, and any additional third tag yields the
tag-count error. -/
theorem read_existing_declaration_check (fs : FS) (digest : List Nat → List Nat)
    (dir : RPath) (algo : Algorithm) (tags : List Metadata)
    (hdir : fs.isDir dir = true)
    (hex : fs.pathExists (bagitPath dir) = true)
    (hread : MetadataFile.read fs (bagitPath dir) = .ok tags) :
    ((∃ a b, tags = [Metadata.BagitVersion a b, Metadata.Encoding]) →
       ∀ e, BagIt.read_existing fs digest dir algo ≠ .error (.BagDeclaration e)) ∧
    ((∀ a b rest, tags ≠ Metadata.BagitVersion a b :: rest) →
       BagIt.read_existing fs digest dir algo = .error (.BagDeclaration (.Tag KEY_VERSION))) ∧
    (∀ a b rest, tags = Metadata.BagitVersion a b :: rest →
       (∀ rest2, rest ≠ Metadata.Encoding :: rest2) →
       BagIt.read_existing fs digest dir algo = .error (.BagDeclaration (.Tag KEY_ENCODING))) ∧
    (∀ a b t rest, tags = Metadata.BagitVersion a b :: Metadata.Encoding :: t :: rest →
       BagIt.read_existing fs digest dir algo = .error (.BagDeclaration .NumberTags)) := by
  have hdisp := read_existing_decl_dispatch fs digest dir algo tags hdir hex hread
  refine ⟨?_, ?_, ?_, ?_⟩
  · rintro ⟨a, b, rfl⟩ e
    rw [hdisp]
    exact validateRest_no_decl fs digest dir algo e
  · intro hno
    rw [hdisp, declarationCheck_no_version tags hno]
  · rintro a b rest rfl hno
    rw [hdisp, declarationCheck_no_encoding a b rest hno]
  · rintro a b t rest rfl
    rw [hdisp]
    rfl

/-- Claim C5 (witness): the declaration dichotomy evaluated on the fixture
bag, whose `bagit.txt` holds exactly the two expected tags; in particular
reading it produces no declaration error. -/
theorem read_existing_declaration_check_witness :
    MetadataFile.read fsDecl (bagitPath sampleRoot)
      = .ok [Metadata.BagitVersion 1 0, Metadata.Encoding] ∧
    ∀ e, BagIt.read_existing fsDecl digAA sampleRoot .Sha256 ≠ .error (.BagDeclaration e) :=
  ⟨by decide,
   (read_existing_declaration_check fsDecl digAA sampleRoot .Sha256
     [Metadata.BagitVersion 1 0, Metadata.Encoding]
     (by decide) (by decide) (by decide)).1 ⟨1, 0, rfl⟩⟩

end Bagit

namespace Bagit

/-- With exactly one summary tag in the list, the oxum cross-check is the
two-field comparison against that tag. -/
theorem oxumCheck_single (ps : List Payload) (o s : Nat) :
    ∀ tags, tags.filter Metadata.isOxum = [Metadata.PayloadOctetStreamSummary o s] →
    oxumCheck ps tags =
      (if s ≠ ps.length then .error (.BagInfoOxum "stream_count")
       else if o ≠ (ps.map Payload.bytes).sum then .error (.BagInfoOxum "octet_count")
       else .ok ()) := by
  intro tags
  induction tags with
  | nil => intro h; simp at h
  | cons t rest ih =>
    intro h
    cases hox : Metadata.isOxum t with
    | false =>
      rw [List.filter_cons_of_neg (by simp [hox])] at h
      have hstep : oxumCheck ps (t :: rest) = oxumCheck ps rest := by
        cases t with
        | PayloadOctetStreamSummary a b => simp [Metadata.isOxum] at hox
        | Custom k v => rfl
        | BagitVersion a b => rfl
        | Encoding => rfl
      rw [hstep]
      exact ih h
    | true =>
      rw [List.filter_cons_of_pos (by simp [hox])] at h
      have hrest0 : rest.filter Metadata.isOxum = [] := (List.cons_eq_cons.mp h).2
      have ht : t = Metadata.PayloadOctetStreamSummary o s := (List.cons_eq_cons.mp h).1
      subst ht
      have hrestok : oxumCheck ps rest = .ok () := by
        apply oxumCheck_no_oxum
        intro o2 s2 hmem
        have := List.filter_eq_nil_iff.mp hrest0 _ hmem
        simp [Metadata.isOxum] at this
      by_cases hs : s ≠ ps.length
      · simp only [oxumCheck, if_pos hs]
      · simp only [oxumCheck, if_neg hs]
        by_cases ho : o ≠ (ps.map Payload.bytes).sum
        · simp only [if_pos ho]
        · simp only [if_neg ho, hrestok]

/-- Reduction of `read_existing` to the oxum stage once every earlier stage
passes with the given results. -/
theorem read_existing_to_oxum (fs : FS) (digest : List Nat → List Nat)
    (dir : RPath) (algo : Algorithm) (decls infoTags : List Metadata)
    (files : List RPath) (m : RPath) (payloads : List Payload)
    (hdir : fs.isDir dir = true)
    (hex : fs.pathExists (bagitPath dir) = true)
    (hread : MetadataFile.read fs (bagitPath dir) = .ok decls)
    (hdecl : declarationCheck decls = .ok ())
    (hinfoex : fs.pathExists (baginfoPath dir) = true)
    (hinfo : MetadataFile.read fs (baginfoPath dir) = .ok infoTags)
    (hdl : fs.readDirRes dir = .ok files)
    (hfind : Manifest.find_manifest fs files algo.name = some m)
    (hval : Manifest.get_validate_payloads fs digest m dir = .ok payloads) :
    BagIt.read_existing fs digest dir algo =
      (match oxumCheck payloads infoTags with
       | .error e => .error e
       | .ok () =>
         match (match Manifest.find_tag_manifest fs files algo.name with
                | some tag_manifest =>
                  (match Manifest.get_validate_payloads fs digest tag_manifest dir with
                   | .error e => .error e
                   | .ok _ => .ok () : Except ReadError Unit)
                | none => .ok () : Except ReadError Unit) with
         | .error e => .error e
         | .ok () => .ok ⟨dir, payloads, algo, infoTags⟩) := by
  rw [read_existing_decl_dispatch fs digest dir algo decls hdir hex hread, hdecl]
  unfold BagIt.validateRest
  simp only [hinfoex, if_true, hinfo]
  unfold BagIt.validateManifests
  simp only [hdl, hfind, hval]
  rfl

end Bagit

namespace Bagit

/-- Claim C6: when bag-info holds a (single) Payload-Oxum summary tag,
`read_existing` succeeds only if the declared stream count equals the
number of validated payloads and the declared octet count equals the sum of
their byte sizes; otherwise it fails with the error naming the disagreeing
field (`stream_count` checked first, then `octet_count`). -/
theorem read_existing_oxum_crosscheck (fs : FS) (digest : List Nat → List Nat)
    (dir : RPath) (algo : Algorithm) (decls infoTags : List Metadata)
    (files : List RPath) (m : RPath) (payloads : List Payload) (o s : Nat)
    (hdir : fs.isDir dir = true)
    (hex : fs.pathExists (bagitPath dir) = true)
    (hread : MetadataFile.read fs (bagitPath dir) = .ok decls)
    (hdecl : declarationCheck decls = .ok ())
    (hinfoex : fs.pathExists (baginfoPath dir) = true)
    (hinfo : MetadataFile.read fs (baginfoPath dir) = .ok infoTags)
    (hdl : fs.readDirRes dir = .ok files)
    (hfind : Manifest.find_manifest fs files algo.name = some m)
    (hval : Manifest.get_validate_payloads fs digest m dir = .ok payloads)
    (honly : infoTags.filter Metadata.isOxum = [Metadata.PayloadOctetStreamSummary o s]) :
    ((∃ bag, BagIt.read_existing fs digest dir algo = .ok bag) →
        s = payloads.length ∧ o = (payloads.map Payload.bytes).sum) ∧
    (s ≠ payloads.length →
        BagIt.read_existing fs digest dir algo = .error (.BagInfoOxum "stream_count")) ∧
    (s = payloads.length → o ≠ (payloads.map Payload.bytes).sum →
        BagIt.read_existing fs digest dir algo = .error (.BagInfoOxum "octet_count")) := by
  have hred := read_existing_to_oxum fs digest dir algo decls infoTags files m payloads
    hdir hex hread hdecl hinfoex hinfo hdl hfind hval
  have hsingle := oxumCheck_single payloads o s infoTags honly
  have hstream : s ≠ payloads.length →
      BagIt.read_existing fs digest dir algo = .error (.BagInfoOxum "stream_count") := by
    intro hs
    rw [hred, hsingle, if_pos hs]
  have hoctet : s = payloads.length → o ≠ (payloads.map Payload.bytes).sum →
      BagIt.read_existing fs digest dir algo = .error (.BagInfoOxum "octet_count") := by
    intro hs ho
    rw [hred, hsingle, if_neg (by simp [hs]), if_pos ho]
  refine ⟨?_, hstream, hoctet⟩
  rintro ⟨bag, hbag⟩
  by_cases hs : s = payloads.length
  · by_cases ho : o = (payloads.map Payload.bytes).sum
    · exact ⟨hs, ho⟩
    · rw [hoctet hs ho] at hbag
      cases hbag
  · rw [hstream hs] at hbag
    cases hbag

/-- Claim C6 (witness): the fixture bag declares `Payload-Oxum: 0.1` while
its manifest validates zero payloads, so reading fails naming the stream
count. -/
theorem read_existing_oxum_crosscheck_witness :
    MetadataFile.read fsOxum (baginfoPath sampleRoot)
      = .ok [Metadata.PayloadOctetStreamSummary 0 1] ∧
    BagIt.read_existing fsOxum digAA sampleRoot .Sha256
      = .error (.BagInfoOxum "stream_count") :=
  ⟨by decide,
   (read_existing_oxum_crosscheck fsOxum digAA sampleRoot .Sha256
     [Metadata.BagitVersion 1 0, Metadata.Encoding]
     [Metadata.PayloadOctetStreamSummary 0 1]
     [bagitPath sampleRoot, baginfoPath sampleRoot, ⟨true, ["bag", "manifest-sha256.txt"]⟩]
     ⟨true, ["bag", "manifest-sha256.txt"]⟩ [] 0 1
     (by decide) (by decide) (by decide) (by decide) (by decide) (by decide)
     (by decide) (by decide) (by decide) (by decide)).2.1 (by decide)⟩

end Bagit

namespace Bagit

/-- When no directory entry is a regular `.txt` file whose stem strips the
marker to the algorithm name, no manifest is found. -/
theorem find_none_of_no_match (fs : FS) (files : List RPath) (algoName marker : String)
    (h : ∀ p ∈ files, ¬ (fs.isFile p = true ∧ p.extension = some "txt" ∧
          (p.fileStem.bind (fun st => stripLeading st marker)) = some algoName)) :
    Manifest.find fs files algoName marker = none := by
  unfold Manifest.find
  rw [List.find?_eq_none]
  intro p hp hbeq
  rw [List.mem_filter] at hp
  obtain ⟨hmem, hcand⟩ := hp
  apply h p hmem
  unfold manifestCandidate at hcand
  rw [Bool.and_eq_true, Bool.and_eq_true] at hcand
  obtain ⟨⟨hfile, _⟩, hext⟩ := hcand
  refine ⟨hfile, by simpa using hext, ?_⟩
  cases hfs : p.fileStem with
  | none =>
    rw [hfs] at hbeq
    simp at hbeq
  | some st =>
    rw [hfs] at hbeq
    simp only [beq_iff_eq] at hbeq
    simp [hfs, hbeq]

/-- Claim C9: when no file in the bag directory is a regular `.txt` file
whose stem, with the `manifest-` marker stripped, equals the requested
algorithm's canonical name, `read_existing` fails with the
`NotRequestedAlgorithm` policy error, not a generic I/O error. -/
theorem read_existing_not_requested_algorithm (fs : FS) (digest : List Nat → List Nat)
    (dir : RPath) (algo : Algorithm) (decls : List Metadata) (files : List RPath)
    (hdir : fs.isDir dir = true)
    (hex : fs.pathExists (bagitPath dir) = true)
    (hread : MetadataFile.read fs (bagitPath dir) = .ok decls)
    (hdecl : declarationCheck decls = .ok ())
    (hinfo : fs.pathExists (baginfoPath dir) = false ∨
      ∃ infoTags, MetadataFile.read fs (baginfoPath dir) = .ok infoTags)
    (hdl : fs.readDirRes dir = .ok files)
    (hnone : ∀ p ∈ files, ¬ (fs.isFile p = true ∧ p.extension = some "txt" ∧
      (p.fileStem.bind (fun st => stripLeading st "manifest-")) = some algo.name)) :
    BagIt.read_existing fs digest dir algo = .error .NotRequestedAlgorithm := by
  have hfindnone : Manifest.find_manifest fs files algo.name = none :=
    find_none_of_no_match fs files algo.name "manifest-" hnone
  rw [read_existing_decl_dispatch fs digest dir algo decls hdir hex hread, hdecl]
  unfold BagIt.validateRest
  cases hb : fs.pathExists (baginfoPath dir) with
  | false =>
    simp only [hb, Bool.false_eq_true, if_false]
    unfold BagIt.validateManifests
    simp only [hdl, hfindnone]
  | true =>
    rcases hinfo with hno | ⟨infoTags, hok⟩
    · rw [hb] at hno
      cases hno
    · simp only [hb, if_true, hok]
      unfold BagIt.validateManifests
      simp only [hdl, hfindnone]

/-- Claim C9 (witness): the fixture bag has a valid declaration but no
manifest file at all; requesting sha256 yields the policy error. -/
theorem read_existing_not_requested_algorithm_witness :
    BagIt.read_existing fsNoManifest digAA sampleRoot .Sha256
      = .error .NotRequestedAlgorithm :=
  read_existing_not_requested_algorithm fsNoManifest digAA sampleRoot .Sha256
    [Metadata.BagitVersion 1 0, Metadata.Encoding] [bagitPath sampleRoot]
    (by decide) (by decide) (by decide) (by decide) (Or.inl (by decide)) (by decide)
    (by decide)

end Bagit

namespace Bagit

/-- Claim C7: whenever the three file writes succeed, `finalize` writes as
the third file the info file whose contents are the accumulated tags
followed by a byte/stream summary tag with octet count the sum of the
payloads' byte sizes and stream count the length of the payload list; the
same tag is appended to the bag's tag list. -/
theorem finalize_writes_oxum_tag (fs : FS) (digest : List Nat → List Nat) (b : BagIt)
    (h1 : fs.writeRes (b.path.join (RPath.rel [b.manifestName])) = none)
    (h2 : fs.writeRes (b.path.join (RPath.rel ["bagit.txt"])) = none)
    (h3 : fs.writeRes (b.path.join (RPath.rel ["bag-info.txt"])) = none) :
    (BagIt.finalize fs digest b).2.2.take 3 =
      [(b.path.join (RPath.rel [b.manifestName]),
          String.intercalate "\n" (b.items.map Payload.toLine)),
       (b.path.join (RPath.rel ["bagit.txt"]),
          MetadataFile.contents [Metadata.BagitVersion 1 0, Metadata.Encoding]),
       (b.path.join (RPath.rel ["bag-info.txt"]),
          MetadataFile.contents (b.tags ++
            [Metadata.PayloadOctetStreamSummary ((b.items.map Payload.bytes).sum)
               b.items.length]))] ∧
    (BagIt.finalize fs digest b).2.1.tags =
      b.tags ++ [Metadata.PayloadOctetStreamSummary ((b.items.map Payload.bytes).sum)
        b.items.length] := by
  unfold BagIt.finalize writeManifestFile
  simp only [h1, h2, h3]
  cases htm : writeTagmanifestFile fs digest
      { b with tags := b.tags ++ [finalizeOxumTag b] } with
  | error e => simp [htm, finalizeOxumTag, MetadataFile.contents]
  | ok ev => simp [htm, finalizeOxumTag, MetadataFile.contents]

/-- Claim C7 (witness): a bag of three payloads of sizes 10, 20 and 30
bytes gets `Payload-Oxum: 60.3` appended and written into `bag-info.txt`. -/
theorem finalize_writes_oxum_tag_witness :
    ((BagIt.finalize (fsOfTable sampleRoot []) digAA bagThree).2.2.take 3 =
      [(sampleRoot.join (RPath.rel [bagThree.manifestName]),
          String.intercalate "\n" (bagThree.items.map Payload.toLine)),
       (sampleRoot.join (RPath.rel ["bagit.txt"]),
          MetadataFile.contents [Metadata.BagitVersion 1 0, Metadata.Encoding]),
       (sampleRoot.join (RPath.rel ["bag-info.txt"]),
          MetadataFile.contents (bagThree.tags ++
            [Metadata.PayloadOctetStreamSummary
               ((bagThree.items.map Payload.bytes).sum) bagThree.items.length]))] ∧
     (BagIt.finalize (fsOfTable sampleRoot []) digAA bagThree).2.1.tags =
       bagThree.tags ++ [Metadata.PayloadOctetStreamSummary
         ((bagThree.items.map Payload.bytes).sum) bagThree.items.length]) ∧
    (bagThree.items.map Payload.bytes).sum = 60 ∧ bagThree.items.length = 3 ∧
    Metadata.toLine (Metadata.PayloadOctetStreamSummary 60 3) = "Payload-Oxum: 60.3" :=
  ⟨finalize_writes_oxum_tag (fsOfTable sampleRoot []) digAA bagThree rfl rfl rfl,
   by decide, by decide, by decide⟩

end Bagit

namespace Bagit

/-- Updating a bag's tags changes neither its manifest names nor its tag
manifest source list. -/
theorem tagManifestItems_tags (b : BagIt) (t : List Metadata) :
    tagManifestItems { b with tags := t } = tagManifestItems b := rfl

/-- Updating a bag's tags does not change the tag manifest file name. -/
theorem tagmanifestName_tags (b : BagIt) (t : List Metadata) :
    BagIt.tagmanifestName { b with tags := t } = b.tagmanifestName := rfl

/-- Claim C4 (counterexample): with every write succeeding but the size
query for the just-written `bagit.txt` failing (error kind 5), `finalize`
returns success and the tag manifest it writes silently omits the
`bagit.txt` entry: the per-file failure does not surface to the caller. -/
theorem finalize_silent_omission_cex :
    fsOmit.sizeRes (sampleRoot.join (RPath.rel ["bagit.txt"])) = .error 5 ∧
    (BagIt.finalize fsOmit digZero bagEmpty).1 = .ok () ∧
    (BagIt.finalize fsOmit digZero bagEmpty).2.2.map Prod.snd =
      ["",
       "BagIt-Version: 1.0" ++ "\n" ++ "Tag-File-Character-Encoding: UTF-8",
       "Payload-Oxum: 0.0",
       "00 bag-info.txt" ++ "\n" ++ "00 manifest-sha256.txt"] := by
  decide

/-- Claim C4 (amended): `finalize` succeeds exactly when the four file
writes succeed and the checksums of the three tag files can be computed;
every such I/O failure surfaces as an error, but a failure to build a tag
manifest entry (the size query of a just-written file failing) does not
surface — the entry is silently dropped, as the counterexample shows. -/
theorem finalize_success_iff (fs : FS) (digest : List Nat → List Nat) (b : BagIt) :
    (BagIt.finalize fs digest b).1 = .ok () ↔
      (fs.writeRes (b.path.join (RPath.rel [b.manifestName])) = none ∧
       fs.writeRes (b.path.join (RPath.rel ["bagit.txt"])) = none ∧
       fs.writeRes (b.path.join (RPath.rel ["bag-info.txt"])) = none ∧
       (∃ cks, collectChecksums fs digest b.path (tagManifestItems b) = .ok cks) ∧
       fs.writeRes (b.path.join (RPath.rel [b.tagmanifestName])) = none) := by
  unfold BagIt.finalize writeManifestFile
  cases h1 : fs.writeRes (b.path.join (RPath.rel [b.manifestName])) with
  | some k => simp [h1]
  | none =>
    cases h2 : fs.writeRes (b.path.join (RPath.rel ["bagit.txt"])) with
    | some k => simp [h1, h2]
    | none =>
      cases h3 : fs.writeRes (b.path.join (RPath.rel ["bag-info.txt"])) with
      | some k => simp [h1, h2, h3]
      | none =>
        unfold writeTagmanifestFile writeManifestFile
        simp only [tagManifestItems_tags, tagmanifestName_tags]
        cases hck : collectChecksums fs digest b.path (tagManifestItems b) with
        | error e => simp [h1, h2, h3, hck]
        | ok cks =>
          cases h4 : fs.writeRes (b.path.join (RPath.rel [b.tagmanifestName])) with
          | some k => simp [h1, h2, h3, hck, h4]
          | none => simp [h1, h2, h3, hck, h4]

end Bagit
